import Mathlib

set_option maxRecDepth 8000

/-!
Shallow embedding of the ninja build-file lexer (`src/lexer.in.cc`).

The input buffer is modelled as a `List Char` together with the null-terminated
contract of the source: `byteAt` returns the NUL sentinel (`Char.ofNat 0`) for
every offset at or past the end of the list.  A read that the C program would
perform beyond the sentinel therefore keeps seeing sentinel bytes.

Each re2c rule set (`ReadToken`, `EatWhitespace`, `ReadIdent`,
`ReadEvalString`) is rendered as an explicit maximal-munch scanner.  re2c
semantics reproduced here: the longest match wins, ties go to the earlier
rule, and a failed longer attempt backtracks to the last accepted shorter
match (which is how an unterminated `${` or a lone `$` falls back to the
one-byte `[^]` rule).  The re2c dot in the comment rule `"#".*"\n"` matches
every byte except newline, including the NUL sentinel, and the embedding keeps
that behaviour.

Scanning loops carry explicit fuel and return `none` when the fuel is
exhausted; a scan that the C code would never finish within the buffer (it
would read past the buffer) yields `none` for every fuel.
-/

/-- Byte at offset `i` of the buffer; NUL sentinel at and past the end. -/
def byteAt (s : List Char) (i : Nat) : Char := s.getD i (Char.ofNat 0)

/-- re2c class `simple_varname = [a-zA-Z0-9_]`. -/
def isSimpleVarnameChar (c : Char) : Bool :=
  decide (('a' ≤ c ∧ c ≤ 'z') ∨ ('A' ≤ c ∧ c ≤ 'Z') ∨ ('0' ≤ c ∧ c ≤ '9') ∨ c = '_')

/-- re2c class `varname = [a-zA-Z0-9_.]`. -/
def isVarnameChar (c : Char) : Bool := isSimpleVarnameChar c || decide (c = '.')

/-- The class `[ ]`. -/
def isSpaceChar (c : Char) : Bool := decide (c = ' ')

/-- The class `[^$ :\n|\000]` of plain value bytes in `ReadEvalString`. -/
def isPlainEvalChar (c : Char) : Bool :=
  decide (c ≠ '$' ∧ c ≠ ' ' ∧ c ≠ ':' ∧ c ≠ '\n' ∧ c ≠ '|' ∧ c ≠ Char.ofNat 0)

/-- End offset of the maximal run of bytes satisfying `p`, scanning the list
suffix `l` that starts at offset `i`.  Every character class this is used with
rejects the NUL sentinel, so stopping at the end of the list is exactly where
the generated scanner stops. -/
def runEnd (p : Char → Bool) : List Char → Nat → Nat
  | [], i => i
  | c :: cs, i => if p c then runEnd p cs (i + 1) else i

/-- The bytes of the half-open offset interval `[i, j)`, as `StringPiece(start, p - start)` does. -/
def sliceBytes (s : List Char) (i j : Nat) : List Char := (s.drop i).take (j - i)

/-- Token kinds of `Lexer::Token`. -/
inductive Token where
  | ERROR
  | BUILD
  | RULE
  | DEFAULT
  | IDENT
  | EQUALS
  | TEOF
  | INDENT
  | COLON
  | PIPE
  | PIPE2
  | NEWLINE
  | INCLUDE
  | SUBNINJA
deriving DecidableEq

/-- Scanner state: the borrowed buffer, the cursor `ofs_`, and `last_token_`
(`none` models the initial NULL pointer). -/
structure Lexer where
  input : List Char
  ofs : Nat
  lastToken : Option Nat
deriving DecidableEq

/-- Classification of a maximal `varname` run: the keyword rules win a tie
with the `varname` rule at equal length (they are listed earlier), and a
strictly longer `varname` match beats every keyword. -/
def classifyVarname (w : List Char) : Token :=
  if w = "build".data then Token.BUILD
  else if w = "rule".data then Token.RULE
  else if w = "default".data then Token.DEFAULT
  else if w = "include".data then Token.INCLUDE
  else if w = "subninja".data then Token.SUBNINJA
  else Token.IDENT

/-- Body loop of the comment rule `"#".*"\n"`: the re2c dot matches every byte
except `\n`, including the NUL sentinel, so this search does not stop at the
end of the buffer.  Returns the offset just past the terminating newline. -/
def commentEndF (s : List Char) : Nat → Nat → Option Nat
  | 0, _ => none
  | fuel + 1, j => if byteAt s j = '\n' then some (j + 1) else commentEndF s fuel (j + 1)

/-- The `for (;;)` loop of `Lexer::ReadToken`: skips comments, then returns
`(start, p, token)` for the first real token, where `start` is the offset of
the match and `p` the offset just past it. -/
def readTokenLoopF (s : List Char) : Nat → Nat → Option (Nat × Nat × Token)
  | 0, _ => none
  | fuel + 1, i =>
    if byteAt s i = '#' then
      match commentEndF s (fuel + 1) (i + 1) with
      | none => none
      | some j => readTokenLoopF s fuel j
    else if byteAt s i = '\n' then some (i, i + 1, Token.NEWLINE)
    else if byteAt s i = ' ' then some (i, runEnd isSpaceChar (s.drop i) i, Token.INDENT)
    else if byteAt s i = '=' then some (i, i + 1, Token.EQUALS)
    else if byteAt s i = ':' then some (i, i + 1, Token.COLON)
    else if byteAt s i = '|' then
      (if byteAt s (i + 1) = '|' then some (i, i + 2, Token.PIPE2)
       else some (i, i + 1, Token.PIPE))
    else if isVarnameChar (byteAt s i) then
      some (i, runEnd isVarnameChar (s.drop i) i,
        classifyVarname (sliceBytes s i (runEnd isVarnameChar (s.drop i) i)))
    else if byteAt s i = Char.ofNat 0 then some (i, i + 1, Token.TEOF)
    else some (i, i + 1, Token.ERROR)

/-- `Lexer::EatWhitespace`: repeatedly consume a maximal `[ ]+` run or a
`"$\n"` pair; stop (leaving the cursor before the offending byte) on anything
else, including the sentinel. -/
def EatWhitespace (s : List Char) : Nat → Nat → Option Nat
  | 0, _ => none
  | fuel + 1, i =>
    if byteAt s i = ' ' then EatWhitespace s fuel (runEnd isSpaceChar (s.drop i) i)
    else if byteAt s i = '$' ∧ byteAt s (i + 1) = '\n' then EatWhitespace s fuel (i + 2)
    else some i

/-- `Lexer::ReadToken`: run the token loop, record `last_token_ = start` and
`ofs_ = p`, and eat trailing whitespace unless the token was `NEWLINE` or
`TEOF`. -/
def ReadToken (st : Lexer) (fuel : Nat) : Option (Token × Lexer) :=
  match readTokenLoopF st.input fuel st.ofs with
  | none => none
  | some (start, stop, tok) =>
    if tok = Token.NEWLINE ∨ tok = Token.TEOF then some (tok, ⟨st.input, stop, some start⟩)
    else
      match EatWhitespace st.input fuel stop with
      | none => none
      | some j => some (tok, ⟨st.input, j, some start⟩)

/-- `Lexer::UnreadToken`: rewind the cursor to `last_token_` (only called
after a read, so `lastToken` is set in every reachable use). -/
def UnreadToken (st : Lexer) : Lexer := ⟨st.input, st.lastToken.getD 0, st.lastToken⟩

/-- `Lexer::PeekToken`. -/
def PeekToken (st : Lexer) (k : Token) (fuel : Nat) : Option (Bool × Lexer) :=
  match ReadToken st fuel with
  | none => none
  | some (t, st1) => if t = k then some (true, st1) else some (false, UnreadToken st1)

/-- `Lexer::ReadIdent`: a `varname` run at the cursor yields its text and eats
trailing whitespace; anything else returns `none` as the identifier and
leaves the state unchanged. -/
def ReadIdent (st : Lexer) (fuel : Nat) : Option (Option (List Char) × Lexer) :=
  if isVarnameChar (byteAt st.input st.ofs) then
    match EatWhitespace st.input fuel (runEnd isVarnameChar (st.input.drop st.ofs) st.ofs) with
    | none => none
    | some k =>
      some (some (sliceBytes st.input st.ofs (runEnd isVarnameChar (st.input.drop st.ofs) st.ofs)),
        ⟨st.input, k, st.lastToken⟩)
  else some (none, st)

/-- Fragment tag of `EvalString::Add`. -/
inductive FragKind where
  | RAW
  | SPECIAL
deriving DecidableEq

/-- One fragment of an evaluable string. -/
structure Frag where
  kind : FragKind
  text : List Char
deriving DecidableEq

/-- Result of the `for (;;)` loop of `Lexer::ReadEvalString`: either a normal
break carrying the accumulated fragments, the `start` of the final match and
the cursor `stop`, or an error (`last_token_` position, message, fragments
added so far). -/
inductive ScanStep where
  | done (frags : List Frag) (start stop : Nat)
  | fail (pos : Nat) (msg : String) (frags : List Frag)
deriving DecidableEq

/-- The `for (;;)` loop of `Lexer::ReadEvalString`.  Dispatch on the first
byte of the match attempt; a `$` followed by anything the five dollar rules
cannot complete backtracks to the one-byte `[^]` rule, giving a lexing error
at the `$` itself. -/
def readEvalLoopF (s : List Char) (path : Bool) : Nat → Nat → List Frag → Option ScanStep
  | 0, _, _ => none
  | fuel + 1, i, acc =>
    if byteAt s i = Char.ofNat 0 then some (ScanStep.fail i "unexpected EOF" acc)
    else if byteAt s i = ' ' ∨ byteAt s i = ':' ∨ byteAt s i = '|' ∨ byteAt s i = '\n' then
      (if path then some (ScanStep.done acc i i)
       else if byteAt s i = '\n' then some (ScanStep.done acc i (i + 1))
       else readEvalLoopF s path fuel (i + 1) (acc ++ [⟨FragKind.RAW, [byteAt s i]⟩]))
    else if byteAt s i = '$' then
      (if byteAt s (i + 1) = '$' then
        readEvalLoopF s path fuel (i + 2) (acc ++ [⟨FragKind.RAW, ['$']⟩])
       else if byteAt s (i + 1) = ' ' then
        readEvalLoopF s path fuel (i + 2) (acc ++ [⟨FragKind.RAW, [' ']⟩])
       else if byteAt s (i + 1) = '\n' then
        readEvalLoopF s path fuel (runEnd isSpaceChar (s.drop (i + 2)) (i + 2)) acc
       else if byteAt s (i + 1) = '\x7b' then
        (if i + 2 < runEnd isVarnameChar (s.drop (i + 2)) (i + 2) ∧
            byteAt s (runEnd isVarnameChar (s.drop (i + 2)) (i + 2)) = '\x7d' then
          readEvalLoopF s path fuel (runEnd isVarnameChar (s.drop (i + 2)) (i + 2) + 1)
            (acc ++ [⟨FragKind.SPECIAL,
              sliceBytes s (i + 2) (runEnd isVarnameChar (s.drop (i + 2)) (i + 2))⟩])
         else some (ScanStep.fail i "lexing error" acc))
       else if isSimpleVarnameChar (byteAt s (i + 1)) then
        readEvalLoopF s path fuel (runEnd isSimpleVarnameChar (s.drop (i + 1)) (i + 1))
          (acc ++ [⟨FragKind.SPECIAL,
            sliceBytes s (i + 1) (runEnd isSimpleVarnameChar (s.drop (i + 1)) (i + 1))⟩])
       else some (ScanStep.fail i "lexing error" acc))
    else
      readEvalLoopF s path fuel (runEnd isPlainEvalChar (s.drop i) i)
        (acc ++ [⟨FragKind.RAW, sliceBytes s i (runEnd isPlainEvalChar (s.drop i) i)⟩])

/-- Outcome of `Lexer::ReadEvalString`: success with the fragments and the
updated scanner state, or failure with the raw message, the fragments
accumulated before the failure, and the state (cursor unchanged,
`last_token_` at the error position). -/
inductive EvalOutcome where
  | ok (frags : List Frag) (st : Lexer)
  | fail (msg : String) (frags : List Frag) (st : Lexer)
deriving DecidableEq

/-- `Lexer::ReadEvalString`: on a normal break set `last_token_ = start` and
`ofs_ = p`, and eat trailing whitespace only in path mode. -/
def ReadEvalString (st : Lexer) (path : Bool) (fuel : Nat) : Option EvalOutcome :=
  match readEvalLoopF st.input path fuel st.ofs [] with
  | none => none
  | some (ScanStep.fail pos msg frags) =>
    some (EvalOutcome.fail msg frags ⟨st.input, st.ofs, some pos⟩)
  | some (ScanStep.done frags start stop) =>
    if path then
      match EatWhitespace st.input fuel stop with
      | none => none
      | some j => some (EvalOutcome.ok frags ⟨st.input, j, some start⟩)
    else some (EvalOutcome.ok frags ⟨st.input, stop, some start⟩)

/-- Line/column helper of `Lexer::Error`: walk the first `pos` bytes, counting
newlines (1-based line) and remembering the offset just past the last newline
(the context start). -/
def lineCtxGo : List Char → Nat → Nat → Nat → Nat × Nat
  | [], _, line, ctx => (line, ctx)
  | c :: cs, i, line, ctx =>
    if c = '\n' then lineCtxGo cs (i + 1) (line + 1) (i + 1) else lineCtxGo cs (i + 1) line ctx

/-- Context-snippet length of `Lexer::Error`: up to 50 bytes of the offending
line, stopping at a NUL or a newline. -/
def ctxLenGo (s : List Char) (ctx : Nat) : Nat → Nat → Nat
  | 0, acc => acc
  | n + 1, acc =>
    if byteAt s (ctx + acc) = Char.ofNat 0 ∨ byteAt s (ctx + acc) = '\n' then acc
    else ctxLenGo s ctx n (acc + 1)

/-- `Lexer::Error`: render `"<filename>:<line>: <message>\n"`, followed by the
context line and a caret only when the computed column is positive. -/
def ErrorMessage (filename : String) (input : List Char) (lastToken : Option Nat)
    (message : String) : String :=
  let pos := lastToken.getD 0
  let lc := lineCtxGo (input.take pos) 0 1 0
  let col := pos - lc.2
  let header := filename ++ ":" ++ toString lc.1 ++ ": " ++ message ++ "\n"
  if 0 < col then
    header ++ String.mk (sliceBytes input lc.2 (lc.2 + ctxLenGo input lc.2 50 0)) ++ "\n" ++
      String.mk (List.replicate col ' ') ++ "^\n"
  else header

/-- Whether `needle` occurs contiguously anywhere in `hay` (used to state what
a rendered diagnostic does not contain). -/
def containsStr (hay needle : List Char) : Bool :=
  (List.range (hay.length + 1)).any (fun k => sliceBytes hay k (k + needle.length) == needle)

/-- The keyword rules of `ReadToken`, with their token kinds. -/
def keywordTable : List (String × Token) :=
  [("build", Token.BUILD), ("rule", Token.RULE), ("default", Token.DEFAULT),
   ("include", Token.INCLUDE), ("subninja", Token.SUBNINJA)]

/-! ### Basic facts about the embedding -/

theorem byteAt_eq_sentinel (s : List Char) (i : Nat) (h : s.length ≤ i) :
    byteAt s i = Char.ofNat 0 :=
  List.getD_eq_default s (Char.ofNat 0) h

theorem lt_length_of_byteAt_ne (s : List Char) (i : Nat)
    (h : byteAt s i ≠ Char.ofNat 0) : i < s.length := by
  by_contra hlt
  exact h (byteAt_eq_sentinel s i (Nat.le_of_not_lt hlt))

theorem byteAt_eq_getElem (s : List Char) (i : Nat) (h : i < s.length) :
    byteAt s i = s[i] :=
  List.getD_eq_getElem s (Char.ofNat 0) h

theorem runEnd_eq_takeWhile (p : Char → Bool) (l : List Char) (i : Nat) :
    runEnd p l i = i + (l.takeWhile p).length := by
  induction l generalizing i with
  | nil => simp [runEnd]
  | cons c cs ih =>
    by_cases h : p c
    · rw [runEnd, if_pos h, ih, List.takeWhile_cons_of_pos h]
      simp only [List.length_cons]
      omega
    · rw [runEnd, if_neg h, List.takeWhile_cons_of_neg h]
      simp

theorem takeWhile_append_all {p : Char → Bool} (l1 l2 : List Char)
    (h : ∀ a ∈ l1, p a = true) :
    (l1 ++ l2).takeWhile p = l1 ++ l2.takeWhile p := by
  induction l1 with
  | nil => simp
  | cons a t ih =>
    have ih1 := ih (fun b hb => h b (by simp [hb]))
    rw [List.cons_append, List.takeWhile_cons_of_pos (h a (by simp)), ih1, List.cons_append]

theorem takeWhile_eq_self {p : Char → Bool} (l : List Char) (h : ∀ a ∈ l, p a = true) :
    l.takeWhile p = l :=
  List.takeWhile_eq_self_iff.mpr h

/-- `EatWhitespace` finishes whenever the fuel exceeds the distance from the
cursor to the point one past the end of the buffer: every loop iteration that
continues starts strictly inside the buffer and advances the cursor. -/
theorem eatWhitespace_isSome (s : List Char) :
    ∀ fuel i, s.length + 1 - i < fuel → ∃ j, EatWhitespace s fuel i = some j := by
  intro fuel
  induction fuel with
  | zero => intro i h; omega
  | succ f ih =>
    intro i h
    rw [EatWhitespace]
    by_cases h1 : byteAt s i = ' '
    · rw [if_pos h1]
      have hi : i < s.length := lt_length_of_byteAt_ne s i (by rw [h1]; decide)
      have hdrop : s.drop i = s[i] :: s.drop (i + 1) := List.drop_eq_getElem_cons hi
      have hrun : i + 1 ≤ runEnd isSpaceChar (s.drop i) i := by
        rw [hdrop, runEnd, if_pos (by rw [← byteAt_eq_getElem s i hi, h1]; decide),
          runEnd_eq_takeWhile]
        omega
      exact ih _ (by omega)
    · rw [if_neg h1]
      by_cases h2 : byteAt s i = '$' ∧ byteAt s (i + 1) = '\n'
      · rw [if_pos h2]
        have hi : i < s.length := lt_length_of_byteAt_ne s i (by rw [h2.1]; decide)
        exact ih _ (by omega)
      · rw [if_neg h2]
        exact ⟨i, rfl⟩

/-- The comment-body search never stops when no newline occurs at or after
its start offset: the re2c dot also consumes the NUL sentinel. -/
theorem commentEndF_eq_none (s : List Char) :
    ∀ fuel j, (∀ k, j ≤ k → byteAt s k ≠ '\n') → commentEndF s fuel j = none := by
  intro fuel
  induction fuel with
  | zero => intro j _; rfl
  | succ f ih =>
    intro j h
    rw [commentEndF, if_neg (h j (Nat.le_refl j))]
    exact ih (j + 1) (fun k hk => h k (by omega))

theorem hash_ab_no_newline (k : Nat) (hk : 1 ≤ k) : byteAt "#ab".data k ≠ '\n' := by
  by_cases h3 : 3 ≤ k
  · rw [byteAt_eq_sentinel _ _ (by rw [show "#ab".data = ['#', 'a', 'b'] from rfl]; simpa)]
    decide
  · interval_cases k <;> decide

theorem hash_abc_no_newline (k : Nat) (hk : 1 ≤ k) : byteAt "#abc".data k ≠ '\n' := by
  by_cases h4 : 4 ≤ k
  · rw [byteAt_eq_sentinel _ _ (by rw [show "#abc".data = ['#', 'a', 'b', 'c'] from rfl]; simpa)]
    decide
  · interval_cases k <;> decide

/-! ### Claim theorems -/

/-- Claim C9 (code bug): `read_token` does not terminate on every input.  On
the buffer `"#ab"` whose final line is a comment not terminated by a newline,
the comment rule `"#".*"\n"` keeps consuming bytes — the re2c dot also
matches the NUL sentinel — so the scan runs past the end of the buffer and
never yields a token, an error token, or EOF: the loop returns no result for
any amount of fuel. -/
theorem readToken_unterminated_comment_diverges :
    ∀ fuel, ReadToken ⟨"#ab".data, 0, none⟩ fuel = none := by
  intro fuel
  cases fuel with
  | zero => rfl
  | succ f =>
    have hloop : readTokenLoopF "#ab".data (f + 1) 0 = none := by
      rw [readTokenLoopF, if_pos (show byteAt "#ab".data 0 = '#' from rfl),
        commentEndF_eq_none "#ab".data (f + 1) (0 + 1) (fun k hk => hash_ab_no_newline k hk)]
    simp [ReadToken, hloop]

/-- Claim C10 (code bug): a comment whose line reaches the sentinel without a
newline does not produce an `ERROR` token at the `#`.  The comment body class
of `"#".*"\n"` includes the NUL sentinel, so on `"#abc"` the scanner consumes
the sentinel and keeps scanning past the end of the buffer instead of
backtracking to the one-byte rule: `read_token` never returns at all. -/
theorem readToken_eof_comment_no_error_token :
    ∀ fuel, ReadToken ⟨"#abc".data, 0, none⟩ fuel = none := by
  intro fuel
  cases fuel with
  | zero => rfl
  | succ f =>
    have hloop : readTokenLoopF "#abc".data (f + 1) 0 = none := by
      rw [readTokenLoopF, if_pos (show byteAt "#abc".data 0 = '#' from rfl),
        commentEndF_eq_none "#abc".data (f + 1) (0 + 1) (fun k hk => hash_abc_no_newline k hk)]
    simp [ReadToken, hloop]

/-- Claim C1, counterexample: scanning `"foo bar"` in path mode does yield
`[RAW "foo"]`, but the cursor is not left at the space (offset 3): the
trailing `EatWhitespace()` of the path branch has already consumed it, the
cursor ends at offset 4, and a subsequent `read_token` returns `IDENT`
(for `"bar"`), not `INDENT`. -/
theorem pathMode_cursor_not_left_at_space :
    ReadEvalString ⟨"foo bar".data, 0, none⟩ true 32 =
      some (EvalOutcome.ok [⟨FragKind.RAW, "foo".data⟩] ⟨"foo bar".data, 4, some 3⟩) ∧
    (4 : Nat) ≠ 3 ∧
    ReadToken ⟨"foo bar".data, 4, some 3⟩ 32 =
      some (Token.IDENT, ⟨"foo bar".data, 7, some 4⟩) ∧
    Token.IDENT ≠ Token.INDENT := by
  refine ⟨by decide, by decide, by decide, by decide⟩

/-- Claim C1, amended: scanning `"foo bar"` with `path_mode=true` yields
exactly `[RAW "foo"]` and the space is not consumed into any fragment
(`last_token_` records it at offset 3), but the scan then consumes the
trailing whitespace run, so the cursor is left at offset 4 (the `b`) and a
subsequent `read_token` returns `IDENT` spanning `"bar"`. -/
theorem pathMode_scan_eats_trailing_whitespace :
    ReadEvalString ⟨"foo bar".data, 0, none⟩ true 32 =
      some (EvalOutcome.ok [⟨FragKind.RAW, "foo".data⟩] ⟨"foo bar".data, 4, some 3⟩) ∧
    byteAt "foo bar".data 3 = ' ' ∧
    ReadToken ⟨"foo bar".data, 4, some 3⟩ 32 =
      some (Token.IDENT, ⟨"foo bar".data, 7, some 4⟩) := by
  refine ⟨by decide, by decide, by decide⟩

/-- Claim C2, counterexample: in non-path mode the terminating newline is
consumed, not left for the caller.  Scanning `"a\n b"` yields `[RAW "a"]`
with the cursor at offset 2 (just past the newline at offset 1), not at the
newline itself. -/
theorem nonPath_newline_is_consumed :
    ReadEvalString ⟨"a\n b".data, 0, none⟩ false 32 =
      some (EvalOutcome.ok [⟨FragKind.RAW, "a".data⟩] ⟨"a\n b".data, 2, some 1⟩) ∧
    (2 : Nat) ≠ 1 := by
  refine ⟨by decide, by decide⟩

/-- Claim C2, amended: in non-path mode each space, colon, or pipe byte
becomes a one-byte `RAW` fragment and scanning continues; the newline
terminates the scan and is consumed (the cursor ends one byte past it, with
`last_token_` at the newline); no whitespace after the newline is consumed
(the cursor is left on the first following space). -/
theorem nonPath_separators_raw_newline_consumed :
    ReadEvalString ⟨"a :|b\n  c".data, 0, none⟩ false 32 =
      some (EvalOutcome.ok
        [⟨FragKind.RAW, "a".data⟩, ⟨FragKind.RAW, " ".data⟩, ⟨FragKind.RAW, ":".data⟩,
         ⟨FragKind.RAW, "|".data⟩, ⟨FragKind.RAW, "b".data⟩]
        ⟨"a :|b\n  c".data, 6, some 5⟩) ∧
    byteAt "a :|b\n  c".data 5 = '\n' ∧
    byteAt "a :|b\n  c".data 6 = ' ' := by
  refine ⟨by decide, by decide, by decide⟩

/-- Claim C4: the escaping grammar of `read_eval_string`.  `$$` yields
`RAW "$"`; `$ ` yields `RAW " "`; `${name}` yields `SPECIAL name` with the
braces stripped; `$` followed by a simple name (no dot) yields `SPECIAL`
of that name, the following `.`-suffix staying literal; `$`-newline plus the
next line's leading spaces contributes no fragment.  The claim's three
example inputs produce exactly the claimed fragment lists (each scan then
reports EOF at the end of the example buffer, which ends without a
newline). -/
theorem readEvalString_escape_examples :
    ReadEvalString ⟨"a$$b".data, 0, none⟩ false 32 =
      some (EvalOutcome.fail "unexpected EOF"
        [⟨FragKind.RAW, "a".data⟩, ⟨FragKind.RAW, "$".data⟩, ⟨FragKind.RAW, "b".data⟩]
        ⟨"a$$b".data, 0, some 4⟩) ∧
    ReadEvalString ⟨"a$ b".data, 0, none⟩ false 32 =
      some (EvalOutcome.fail "unexpected EOF"
        [⟨FragKind.RAW, "a".data⟩, ⟨FragKind.RAW, " ".data⟩, ⟨FragKind.RAW, "b".data⟩]
        ⟨"a$ b".data, 0, some 4⟩) ∧
    ReadEvalString ⟨"a$\x7bb.c\x7dd".data, 0, none⟩ false 32 =
      some (EvalOutcome.fail "unexpected EOF"
        [⟨FragKind.RAW, "a".data⟩, ⟨FragKind.SPECIAL, "b.c".data⟩, ⟨FragKind.RAW, "d".data⟩]
        ⟨"a$\x7bb.c\x7dd".data, 0, some 8⟩) ∧
    ReadEvalString ⟨"a$\n   b".data, 0, none⟩ false 32 =
      some (EvalOutcome.fail "unexpected EOF"
        [⟨FragKind.RAW, "a".data⟩, ⟨FragKind.RAW, "b".data⟩]
        ⟨"a$\n   b".data, 0, some 7⟩) ∧
    ReadEvalString ⟨"x$abc_1.y\n".data, 0, none⟩ false 32 =
      some (EvalOutcome.ok
        [⟨FragKind.RAW, "x".data⟩, ⟨FragKind.SPECIAL, "abc_1".data⟩, ⟨FragKind.RAW, ".y".data⟩]
        ⟨"x$abc_1.y\n".data, 10, some 9⟩) := by
  refine ⟨by decide, by decide, by decide, by decide, by decide⟩

/-- Claim C5, counterexample: a buffer that ends inside a `${...}` reference
does not fail with `UnexpectedEof` at the sentinel.  On `"${abc"` the
`${varname}` rule dies at the sentinel, re2c backtracks to the one-byte
`[^]` match of the `$`, and the call fails with `"lexing error"` recorded at
offset 0 (the `$`), not `"unexpected EOF"` at offset 5 (the sentinel). -/
theorem unterminated_brace_ref_is_lex_error :
    ReadEvalString ⟨"$\x7babc".data, 0, none⟩ false 32 =
      some (EvalOutcome.fail "lexing error" [] ⟨"$\x7babc".data, 0, some 0⟩) ∧
    "lexing error" ≠ "unexpected EOF" ∧
    (0 : Nat) ≠ 5 := by
  refine ⟨by decide, by decide, by decide⟩

/-- Claim C6, counterexample: for input `"foo\nbarbaz\n"` with the failure
at offset 4 (the `b` of `"barbaz"`) the computed column is 0, and
`Lexer::Error` only appends the context line and caret when the column is
positive — the rendered message contains neither `"barbaz"` nor a caret. -/
theorem diagnostic_col0_has_no_context :
    containsStr (ErrorMessage "input" "foo\nbarbaz\n".data (some 4) "lexing error").data
      "barbaz".data = false ∧
    containsStr (ErrorMessage "input" "foo\nbarbaz\n".data (some 4) "lexing error").data
      "^".data = false := by
  refine ⟨by decide, by decide⟩

/-- Claim C6, amended: for input `"foo\nbarbaz\n"` with the failure at the
`b` of `"barbaz"` (offset 4), the diagnostic reports line 2 — one newline
strictly before the position — and computes column 0, the byte offset from
the start of that line; because the column is 0, the context text and the
caret line are omitted and the whole message is `"input:2: lexing error\n"`. -/
theorem diagnostic_line2_col0_header_only :
    lineCtxGo ("foo\nbarbaz\n".data.take 4) 0 1 0 = (2, 4) ∧
    ErrorMessage "input" "foo\nbarbaz\n".data (some 4) "lexing error" =
      "input:2: lexing error\n" := by
  refine ⟨by decide, by decide⟩

/-- Claim C8, counterexample: a `read_token` call at end-of-input returns
`EOF` but advances the cursor by one byte past the sentinel — the `"\000"`
rule consumes its matched byte — so the cursor does not stay fixed across
repeated calls: on the empty buffer the first call moves the cursor to 1 and
the second to 2. -/
theorem readToken_eof_advances :
    ReadToken ⟨([] : List Char), 0, none⟩ 3 = some (Token.TEOF, ⟨[], 1, some 0⟩) ∧
    ReadToken ⟨([] : List Char), 1, some 0⟩ 3 = some (Token.TEOF, ⟨[], 2, some 1⟩) ∧
    (2 : Nat) ≠ 1 := by
  refine ⟨by decide, by decide, by decide⟩

theorem classifyVarname_not_newline_eof (w : List Char) :
    classifyVarname w ≠ Token.NEWLINE ∧ classifyVarname w ≠ Token.TEOF := by
  unfold classifyVarname
  split_ifs <;> exact ⟨by decide, by decide⟩

/-- At a `varname` byte, the token loop matches the maximal `varname` run and
classifies it (keywords win ties at equal length, longer runs are `IDENT`). -/
theorem readTokenLoopF_varname (s : List Char) (fuel i : Nat)
    (h : isVarnameChar (byteAt s i) = true) :
    readTokenLoopF s (fuel + 1) i =
      some (i, runEnd isVarnameChar (s.drop i) i,
        classifyVarname (sliceBytes s i (runEnd isVarnameChar (s.drop i) i))) := by
  have hne : ∀ c : Char, isVarnameChar c = true → c ≠ '#' ∧ c ≠ '\n' ∧ c ≠ ' ' ∧
      c ≠ '=' ∧ c ≠ ':' ∧ c ≠ '|' := by
    intro c hc
    refine ⟨?_, ?_, ?_, ?_, ?_, ?_⟩ <;>
      (intro he; rw [he] at hc; exact absurd hc (by decide))
  obtain ⟨h1, h2, h3, h4, h5, h6⟩ := hne _ h
  rw [readTokenLoopF, if_neg h1, if_neg h2, if_neg h3, if_neg h4, if_neg h5, if_neg h6,
    if_pos h]

/-- On a buffer `w ++ c :: rest` whose head `w` is a nonempty `varname` run
and where `c` is not a `varname` byte, `read_token` returns the
classification of exactly `w`, with `last_token_` at offset 0. -/
theorem readToken_varname_run (w : List Char) (c : Char) (rest : List Char) (fuel : Nat)
    (hw : w ≠ []) (hall : ∀ a ∈ w, isVarnameChar a = true)
    (hc : isVarnameChar c = false)
    (hfuel : (w ++ c :: rest).length + 2 ≤ fuel) :
    ∃ j, ReadToken ⟨w ++ c :: rest, 0, none⟩ fuel =
      some (classifyVarname w, ⟨w ++ c :: rest, j, some 0⟩) := by
  obtain ⟨a, t, rfl⟩ : ∃ a t, w = a :: t := by
    cases w with
    | nil => exact absurd rfl hw
    | cons a t => exact ⟨a, t, rfl⟩
  cases fuel with
  | zero => omega
  | succ f =>
    have hhead : isVarnameChar (byteAt ((a :: t) ++ c :: rest) 0) = true := by
      rw [List.cons_append]
      exact hall a (by simp)
    have hrun : runEnd isVarnameChar (((a :: t) ++ c :: rest).drop 0) 0 = (a :: t).length := by
      rw [List.drop_zero, runEnd_eq_takeWhile,
        takeWhile_append_all _ _ hall,
        List.takeWhile_cons_of_neg (by simp [hc]), List.append_nil, Nat.zero_add]
    have hslice : sliceBytes ((a :: t) ++ c :: rest) 0 (a :: t).length = a :: t := by
      simp only [sliceBytes, List.drop_zero, Nat.sub_zero, List.take_left]
    have hloop := readTokenLoopF_varname ((a :: t) ++ c :: rest) f 0 hhead
    rw [hrun, hslice] at hloop
    obtain ⟨j, hj⟩ := eatWhitespace_isSome ((a :: t) ++ c :: rest) (f + 1) (a :: t).length
      (by omega)
    refine ⟨j, ?_⟩
    have hnotnl := classifyVarname_not_newline_eof (a :: t)
    simp only [ReadToken, hloop]
    rw [if_neg (by rintro (h | h) <;> simp_all), hj]

/-- On a buffer `w ++ c :: rest` whose head `w` is a nonempty `varname` run
and where `c` is a further `varname` byte, the token loop matches the full
maximal identifier run, and `read_token` returns a single token for it. -/
theorem readToken_ident_run (w : List Char) (c : Char) (rest : List Char) (fuel : Nat)
    (hw : w ≠ []) (hall : ∀ a ∈ w, isVarnameChar a = true)
    (_hc : isVarnameChar c = true)
    (hclass : classifyVarname ((w ++ c :: rest).takeWhile isVarnameChar) = Token.IDENT)
    (hfuel : (w ++ c :: rest).length + 2 ≤ fuel) :
    readTokenLoopF (w ++ c :: rest) fuel 0 =
      some (0, ((w ++ c :: rest).takeWhile isVarnameChar).length, Token.IDENT) ∧
    ∃ j, ReadToken ⟨w ++ c :: rest, 0, none⟩ fuel =
      some (Token.IDENT, ⟨w ++ c :: rest, j, some 0⟩) := by
  obtain ⟨a, t, rfl⟩ : ∃ a t, w = a :: t := by
    cases w with
    | nil => exact absurd rfl hw
    | cons a t => exact ⟨a, t, rfl⟩
  cases fuel with
  | zero => omega
  | succ f =>
    have hhead : isVarnameChar (byteAt ((a :: t) ++ c :: rest) 0) = true := by
      rw [List.cons_append]
      exact hall a (by simp)
    have hrun : runEnd isVarnameChar ((((a :: t) ++ c :: rest)).drop 0) 0 =
        (((a :: t) ++ c :: rest).takeWhile isVarnameChar).length := by
      rw [List.drop_zero, runEnd_eq_takeWhile, Nat.zero_add]
    have hslice : sliceBytes ((a :: t) ++ c :: rest) 0
        (((a :: t) ++ c :: rest).takeWhile isVarnameChar).length =
        ((a :: t) ++ c :: rest).takeWhile isVarnameChar := by
      obtain ⟨u, hu⟩ := (List.takeWhile_prefix (l := (a :: t) ++ c :: rest) isVarnameChar)
      simp only [sliceBytes, List.drop_zero, Nat.sub_zero]
      generalize htw : List.takeWhile isVarnameChar ((a :: t) ++ c :: rest) = tw at hu ⊢
      rw [← hu, List.take_left]
    have hloop := readTokenLoopF_varname ((a :: t) ++ c :: rest) f 0 hhead
    rw [hrun, hslice, hclass] at hloop
    obtain ⟨j, hj⟩ := eatWhitespace_isSome ((a :: t) ++ c :: rest) (f + 1)
      (((a :: t) ++ c :: rest).takeWhile isVarnameChar).length (by omega)
    refine ⟨hloop, j, ?_⟩
    simp only [ReadToken, hloop]
    rw [if_neg (by rintro (h | h) <;> simp_all), hj]

/-- Claim C3: keywords are matched by the same maximal-munch rule as
identifiers.  For every buffer consisting of a keyword followed by a
non-identifier byte (and anything after it), `read_token` returns that
keyword's kind with `last_token_` at the keyword's start; if the keyword
text is instead followed by a further identifier byte, the token loop
matches the whole maximal identifier run and `read_token` returns a single
`IDENT` for it (`"builder"` is one `IDENT`, not `BUILD` then `IDENT`). -/
theorem readToken_keyword_maximal_munch (kw : String) (kind : Token) (c : Char)
    (rest : List Char) (fuel : Nat)
    (hmem : (kw, kind) ∈ keywordTable)
    (hfuel : (kw.data ++ c :: rest).length + 2 ≤ fuel) :
    (isVarnameChar c = false →
      ∃ j, ReadToken ⟨kw.data ++ c :: rest, 0, none⟩ fuel =
        some (kind, ⟨kw.data ++ c :: rest, j, some 0⟩)) ∧
    (isVarnameChar c = true →
      readTokenLoopF (kw.data ++ c :: rest) fuel 0 =
        some (0, ((kw.data ++ c :: rest).takeWhile isVarnameChar).length, Token.IDENT) ∧
      ∃ j, ReadToken ⟨kw.data ++ c :: rest, 0, none⟩ fuel =
        some (Token.IDENT, ⟨kw.data ++ c :: rest, j, some 0⟩)) := by
  fin_cases hmem <;>
  · constructor
    · intro hc
      exact readToken_varname_run _ c rest fuel (by decide) (by decide) hc hfuel
    · intro hc
      refine readToken_ident_run _ c rest fuel (by decide) (by decide) hc ?_ hfuel
      rw [takeWhile_append_all _ _ (by decide), List.takeWhile_cons_of_pos hc]
      simp [classifyVarname]

/-- Claim C3, witness: `"build:"` is `BUILD` (the colon is not an identifier
byte), while `"builder"` is a single `IDENT` spanning the whole run. -/
theorem readToken_keyword_maximal_munch_witness :
    (∃ j, ReadToken ⟨"build".data ++ ':' :: [], 0, none⟩ 16 =
      some (Token.BUILD, ⟨"build".data ++ ':' :: [], j, some 0⟩)) ∧
    (∃ j, ReadToken ⟨"build".data ++ 'e' :: ['r'], 0, none⟩ 16 =
      some (Token.IDENT, ⟨"build".data ++ 'e' :: ['r'], j, some 0⟩)) :=
  ⟨(readToken_keyword_maximal_munch "build" Token.BUILD ':' [] 16 (by decide)
      (by decide)).1 (by decide),
   ((readToken_keyword_maximal_munch "build" Token.BUILD 'e' ['r'] 16 (by decide)
      (by decide)).2 (by decide)).2⟩

/-- Claim C8, amended: at end-of-input every `read_token` call returns `EOF`
again and never errors, but it is not advance-free: the `"\000"` rule
consumes the sentinel byte it matched, so each call moves the cursor one
byte further past the end (under the null-terminated model in which every
offset past the end reads as the sentinel). -/
theorem readToken_at_eof (s : List Char) (i : Nat) (lt : Option Nat) (fuel : Nat)
    (h : s.length ≤ i) :
    ReadToken ⟨s, i, lt⟩ (fuel + 1) = some (Token.TEOF, ⟨s, i + 1, some i⟩) := by
  have h0 : byteAt s i = Char.ofNat 0 := byteAt_eq_sentinel s i h
  have hloop : readTokenLoopF s (fuel + 1) i = some (i, i + 1, Token.TEOF) := by
    rw [readTokenLoopF, h0, if_neg (by decide), if_neg (by decide), if_neg (by decide),
      if_neg (by decide), if_neg (by decide), if_neg (by decide), if_neg (by decide),
      if_pos rfl]
  simp [ReadToken, hloop]

/-- Claim C8, witness: the first end-of-input read on the empty buffer. -/
theorem readToken_at_eof_witness :
    ReadToken ⟨([] : List Char), 0, none⟩ 1 = some (Token.TEOF, ⟨[], 1, some 0⟩) :=
  readToken_at_eof [] 0 none 0 (by decide)

/-- Inversion for `ReadToken`: a successful read came from the token loop,
keeps the buffer, and records `last_token_` at the match start. -/
theorem ReadToken_inv (st : Lexer) (fuel : Nat) (t : Token) (st1 : Lexer)
    (h : ReadToken st fuel = some (t, st1)) :
    ∃ start stop, readTokenLoopF st.input fuel st.ofs = some (start, stop, t) ∧
      st1.input = st.input ∧ st1.lastToken = some start := by
  unfold ReadToken at h
  cases hl : readTokenLoopF st.input fuel st.ofs with
  | none => rw [hl] at h; exact absurd h (by simp)
  | some r =>
    obtain ⟨start, stop, tok⟩ := r
    rw [hl] at h
    have h2 : (if tok = Token.NEWLINE ∨ tok = Token.TEOF
        then some (tok, (⟨st.input, stop, some start⟩ : Lexer))
        else match EatWhitespace st.input fuel stop with
          | none => none
          | some j => some (tok, (⟨st.input, j, some start⟩ : Lexer))) = some (t, st1) := h
    by_cases ht : tok = Token.NEWLINE ∨ tok = Token.TEOF
    · rw [if_pos ht] at h2
      simp only [Option.some.injEq, Prod.mk.injEq] at h2
      obtain ⟨rfl, rfl⟩ := h2
      exact ⟨start, stop, rfl, rfl, rfl⟩
    · rw [if_neg ht] at h2
      cases he : EatWhitespace st.input fuel stop with
      | none => rw [he] at h2; exact absurd h2 (by simp)
      | some j =>
        rw [he] at h2
        simp only [Option.some.injEq, Prod.mk.injEq] at h2
        obtain ⟨rfl, rfl⟩ := h2
        exact ⟨start, stop, rfl, rfl, rfl⟩

/-- When the byte at the cursor is not `#`, no comment is skipped and the
token-loop match starts exactly at the cursor. -/
theorem readTokenLoopF_start (s : List Char) (fuel i : Nat) (start stop : Nat) (t : Token)
    (hhash : byteAt s i ≠ '#')
    (h : readTokenLoopF s fuel i = some (start, stop, t)) : start = i := by
  cases fuel with
  | zero => exact absurd h (by simp [readTokenLoopF])
  | succ f =>
    rw [readTokenLoopF, if_neg hhash] at h
    split_ifs at h <;> (simp only [Option.some.injEq, Prod.mk.injEq] at h; exact h.1.symm)

/-- Claim C7, counterexample: a false `peek_token` is not observationally a
no-op.  On `"#c\n|"`, peeking for `NEWLINE` reads `PIPE`, pushes it back, and
returns false — but the comment consumed on the way stays consumed (the
cursor moved from 0 to 3) and `last_token_` changed from unset to 3. -/
theorem peekToken_false_not_observational_noop :
    PeekToken ⟨"#c\n|".data, 0, none⟩ Token.NEWLINE 16 =
      some (false, ⟨"#c\n|".data, 3, some 3⟩) ∧
    (⟨"#c\n|".data, 3, some 3⟩ : Lexer) ≠ ⟨"#c\n|".data, 0, none⟩ := by
  refine ⟨by decide, by decide⟩

/-- Claim C7, amended: when `peek_token` returns false, the cursor is rewound
exactly to the start of the peeked token (`last_token_`), so the token itself
is fully pushed back; if no comment precedes the token (the byte at the
pre-call cursor is not `#`), that start is the pre-call cursor, giving a net
cursor effect of zero bytes — but `last_token_start` is updated to the
token's start rather than restored to its previous value, and comment bytes
skipped before the token stay consumed. -/
theorem peekToken_false_rewinds_to_token_start (st : Lexer) (k : Token) (fuel : Nat)
    (t : Token) (st1 : Lexer)
    (hread : ReadToken st fuel = some (t, st1)) (hne : t ≠ k)
    (hhash : byteAt st.input st.ofs ≠ '#') :
    PeekToken st k fuel = some (false, ⟨st.input, st.ofs, some st.ofs⟩) := by
  obtain ⟨start, stop, hloop, hinp, hlast⟩ := ReadToken_inv st fuel t st1 hread
  have hstart : start = st.ofs :=
    readTokenLoopF_start st.input fuel st.ofs start stop t hhash hloop
  subst hstart
  simp only [PeekToken, hread]
  rw [if_neg hne]
  unfold UnreadToken
  rw [hinp, hlast]
  rfl

/-- Claim C7, witness: peeking `NEWLINE` on `"|x"` reads `PIPE`, returns
false, and restores the cursor to 0. -/
theorem peekToken_false_rewinds_witness :
    PeekToken ⟨"|x".data, 0, none⟩ Token.NEWLINE 4 =
      some (false, ⟨"|x".data, 0, some 0⟩) :=
  peekToken_false_rewinds_to_token_start ⟨"|x".data, 0, none⟩ Token.NEWLINE 4 Token.PIPE
    ⟨"|x".data, 1, some 0⟩ (by decide) (by decide) (by decide)

/-- Claim C5, amended: `UnexpectedEof` is reported when the sentinel is
reached at the start of a fragment scan — for any nonempty run of plain value
bytes followed by the sentinel, the scan adds the `RAW` run, then fails with
`"unexpected EOF"` recorded at the sentinel's offset (the cursor stays put).
An unterminated `${...}` reference does not reach this case: it fails with
`"lexing error"` at the `$`. -/
theorem readEvalString_eof_at_fragment_start (pre : List Char) (path : Bool) (fuel : Nat)
    (hne : pre ≠ []) (hplain : ∀ c ∈ pre, isPlainEvalChar c = true) :
    ReadEvalString ⟨pre, 0, none⟩ path (fuel + 2) =
      some (EvalOutcome.fail "unexpected EOF" [⟨FragKind.RAW, pre⟩]
        ⟨pre, 0, some pre.length⟩) := by
  obtain ⟨a, t, rfl⟩ : ∃ a t, pre = a :: t := by
    cases pre with
    | nil => exact absurd rfl hne
    | cons a t => exact ⟨a, t, rfl⟩
  have hp := hplain a (by simp)
  simp only [isPlainEvalChar, decide_eq_true_eq] at hp
  obtain ⟨hd, hsp, hco, hnl, hpi, h0⟩ := hp
  have hb : byteAt (a :: t) 0 = a := rfl
  have hrun : runEnd isPlainEvalChar ((a :: t).drop 0) 0 = (a :: t).length := by
    rw [List.drop_zero, runEnd_eq_takeWhile, takeWhile_eq_self _ hplain, Nat.zero_add]
  have hslice : sliceBytes (a :: t) 0 (a :: t).length = a :: t := by
    simp [sliceBytes]
  have hloop : readEvalLoopF (a :: t) path (fuel + 2) 0 [] =
      some (ScanStep.fail (a :: t).length "unexpected EOF" [⟨FragKind.RAW, a :: t⟩]) := by
    rw [show fuel + 2 = (fuel + 1) + 1 from rfl, readEvalLoopF, hb, if_neg h0,
      if_neg (by rintro (h | h | h | h) <;> simp_all), if_neg hd, hrun, hslice,
      readEvalLoopF, byteAt_eq_sentinel _ _ (Nat.le_refl _), if_pos rfl]
    simp
  simp [ReadEvalString, hloop]

/-- Claim C5, witness: the plain one-byte buffer `"q"` ends at the sentinel
mid-scan and reports `UnexpectedEof` there. -/
theorem readEvalString_eof_at_fragment_start_witness :
    ReadEvalString ⟨"q".data, 0, none⟩ false 2 =
      some (EvalOutcome.fail "unexpected EOF" [⟨FragKind.RAW, "q".data⟩]
        ⟨"q".data, 0, some 1⟩) :=
  readEvalString_eof_at_fragment_start "q".data false 0 (by decide) (by decide)
